import Mathlib

/-!
Shallow embedding of the ESP32 test-station firmware
(`src/slave/slave.ino`: the slave command dispatcher and, after the
separator in the same file, the master text-command encoder).

The slave side is modelled as a pure function from a received 3-byte
frame `(cmd, pinId, value)` to the ordered list of observable effects
(LEDC writes, digital pin writes, NeoPixel operations, serial response
bytes, delays, restart).  The master side is modelled as a pure function
from one trimmed operator line to the optional 3-byte frame it sends.
-/

namespace TestStation

/-! ### Pin and protocol constants (`#define`s at the top of the sketch) -/

def PIN_M1_PWM : Nat := 15
def PIN_M2_PWM : Nat := 2
def PIN_M3_PWM : Nat := 12
def PIN_M4_PWM : Nat := 13
def PIN_SERVO1 : Nat := 4

def PIN_M1_AIN1 : Int := 5
def PIN_M1_AIN2 : Int := 18
def PIN_M2_AIN1 : Int := 27
def PIN_M2_AIN2 : Int := 14
def PIN_M3_AIN1 : Int := 32
def PIN_M3_AIN2 : Int := 33
def PIN_M4_AIN1 : Int := 25
def PIN_M4_AIN2 : Int := 26

def CMD_PWM : Nat := 0x01
def CMD_DIGITAL : Nat := 0x02
def CMD_SERVO : Nat := 0x03
def CMD_NEOPIXEL : Nat := 0x04
def CMD_PING : Nat := 0xF0
def CMD_RESET : Nat := 0xFF

/-! ### The Arduino core `map` function -/

/-- Arduino's integer `map(x, in_min, in_max, out_min, out_max)` computes
`(x - in_min) * (out_max - out_min) / (in_max - in_min) + out_min` with C
`long` arithmetic, whose division truncates toward zero.  Both call sites
in the sketch have `in_min = 0`, nonnegative `x`, and positive constants,
where C truncation coincides with `Nat` floor division, so the function is
embedded over `Nat`. -/
def arduinoMap (x inMin inMax outMin outMax : Nat) : Nat :=
  (x - inMin) * (outMax - outMin) / (inMax - inMin) + outMin

/-! ### Observable effects of the slave -/

/-- One observable action of the slave sketch, in program order: an LEDC
(PWM generator) write, a digital pin write, a NeoPixel buffer write, a
NeoPixel show, a serial response byte, a delay, or the `ESP.restart()`
call. -/
inductive Effect where
  | ledcWrite (pin duty : Nat)
  | digitalWrite (gpio : Int) (level : Bool)
  | setPixelColor (r g b : Nat)
  | pixelShow
  | send (resp : Nat)
  | delayMs (ms : Nat)
  | espRestart
deriving DecidableEq

/-- `pinIdToGpio` from the slave sketch: protocol pin id to GPIO number,
`-1` when the id is not one of the 8 table entries. -/
def pinIdToGpio (pinId : Nat) : Int :=
  if pinId = 0x11 then PIN_M1_AIN1
  else if pinId = 0x12 then PIN_M1_AIN2
  else if pinId = 0x21 then PIN_M2_AIN1
  else if pinId = 0x22 then PIN_M2_AIN2
  else if pinId = 0x31 then PIN_M3_AIN1
  else if pinId = 0x32 then PIN_M3_AIN2
  else if pinId = 0x41 then PIN_M4_AIN1
  else if pinId = 0x42 then PIN_M4_AIN2
  else -1

/-- `processCommand` from the slave sketch, as the list of effects it
performs, in order.  The `% 65536` and `% 4294967296` reductions embed the
C conversions of the `long` result of `map` to `uint16_t pwmVal` and
`uint32_t duty`. -/
def processCommand (cmd pinId value : Nat) : List Effect :=
  if cmd = CMD_PWM then
    let pwmVal := arduinoMap value 0 255 0 1023 % 65536
    if pinId = 0x01 then [.ledcWrite PIN_M1_PWM pwmVal, .send 0x01]
    else if pinId = 0x02 then [.ledcWrite PIN_M2_PWM pwmVal, .send 0x01]
    else if pinId = 0x03 then [.ledcWrite PIN_M3_PWM pwmVal, .send 0x01]
    else if pinId = 0x04 then [.ledcWrite PIN_M4_PWM pwmVal, .send 0x01]
    else [.send 0xEE]
  else if cmd = CMD_DIGITAL then
    let gpio := pinIdToGpio pinId
    if 0 ≤ gpio then [.digitalWrite gpio (value != 0), .send 0x02]
    else [.send 0xEE]
  else if cmd = CMD_SERVO then
    let duty := arduinoMap value 0 180 1638 8192 % 4294967296
    [.ledcWrite PIN_SERVO1 duty, .send 0x03]
  else if cmd = CMD_NEOPIXEL then
    if value = 0x00 then [.setPixelColor 0 0 0, .pixelShow, .send 0x04]
    else if value = 0x01 then [.setPixelColor 255 0 0, .pixelShow, .send 0x04]
    else if value = 0x02 then [.setPixelColor 0 255 0, .pixelShow, .send 0x04]
    else if value = 0x03 then [.setPixelColor 0 0 255, .pixelShow, .send 0x04]
    else if value = 0xFF then [.setPixelColor 255 255 255, .pixelShow, .send 0x04]
    else [.send 0xEE]
  else if cmd = CMD_PING then [.send 0xAA]
  else if cmd = CMD_RESET then [.send 0xBB, .delayMs 100, .espRestart]
  else [.send 0xEE]

/-- The response byte carried by an effect, if it is a serial write. -/
def responseOf : Effect → Option Nat
  | .send r => some r
  | _ => none

/-- The serial response bytes of an effect trace, in order. -/
def responses (es : List Effect) : List Nat := es.filterMap responseOf

/-! ### NeoPixel state -/

/-- The durable state of the single-pixel indicator: the buffered color
set by `setPixelColor` and the color last pushed to the LED by `show`. -/
structure PixelState where
  buffer : Nat × Nat × Nat
  shown : Nat × Nat × Nat
deriving DecidableEq

/-- How one effect acts on the indicator state (all other effects leave
it unchanged). -/
def applyEffect (s : PixelState) : Effect → PixelState
  | .setPixelColor r g b => { s with buffer := (r, g, b) }
  | .pixelShow => { s with shown := s.buffer }
  | _ => s

/-- Run an effect trace over the indicator state. -/
def runEffects (s : PixelState) (es : List Effect) : PixelState :=
  es.foldl applyEffect s

/-! ### System-level trace: setup, loop, restart -/

/-- A received 3-byte frame `(opcode, target, value)`. -/
abbrev Frame := Nat × Nat × Nat

/-- The observable effects of `setup()`: after peripheral initialization
it sends the single unsolicited READY byte `0xAA`. -/
def setupTrace : List Effect := [Effect.send 0xAA]

/-- The effect trace of the slave `loop()` over a sequence of complete
frames: each frame is dispatched by `processCommand`; when the dispatch
trace ends in `ESP.restart()`, the firmware boots again, so `setup()`
runs (emitting READY) before the remaining frames are handled. -/
def runFrames : List Frame → List Effect
  | [] => []
  | (c, t, v) :: rest =>
    let es := processCommand c t v
    if Effect.espRestart ∈ es then es ++ (setupTrace ++ runFrames rest)
    else es ++ runFrames rest

/-- A whole run of the slave: `setup()` then the `loop()` over the frames
received. -/
def runSystem (fs : List Frame) : List Effect := setupTrace ++ runFrames fs

/-! ### Master side: Arduino `String` operations

The master sketch manipulates the operator line with Arduino `String`
methods.  They are embedded here over `List Char`, following the Arduino
core semantics: `indexOf`/`lastIndexOf` return `-1` when absent,
`substring` clamps its bounds to the string length and swaps them when
given in the wrong order, and `toInt` is C `atol` (skip whitespace,
optional sign, leading decimal digits). -/

/-- `startsWith pat s` over character lists. -/
def listStartsWith : List Char → List Char → Bool
  | [], _ => true
  | _ :: _, [] => false
  | p :: ps, c :: cs => if p = c then listStartsWith ps cs else false

/-- Scan for `ch`, numbering the characters from `i`. -/
def indexOfAux (ch : Char) : List Char → Nat → Option Nat
  | [], _ => none
  | c :: cs, i => if c = ch then some i else indexOfAux ch cs (i + 1)

/-- Arduino `String.indexOf(ch, fromIndex)`: first occurrence at position
`≥ fromI`, or `-1`. -/
def indexOfFrom (s : List Char) (ch : Char) (fromI : Nat) : Int :=
  match indexOfAux ch (s.drop fromI) fromI with
  | some i => (i : Int)
  | none => -1

/-- Arduino `String.lastIndexOf(ch)`: last occurrence, or `-1`. -/
def lastIndexOfA (s : List Char) (ch : Char) : Int :=
  match indexOfAux ch s.reverse 0 with
  | some i => ((s.length - 1 - i : Nat) : Int)
  | none => -1

/-- Arduino `String.substring(left, right)`: characters `[left, right)`.
The `right` argument arrives as a C `int` (possibly the `-1` of a failed
`indexOf`) converted to `unsigned int`, so a negative value clamps to the
string length; Arduino swaps the bounds when `left > right`. -/
def substringA (s : List Char) (left : Nat) (right : Int) : List Char :=
  (s.take (max left (if right < 0 then s.length else min right.toNat s.length))).drop
    (min left (if right < 0 then s.length else min right.toNat s.length))

/-- Arduino `String.substring(from)`: suffix starting at `from`.  A
negative `from` becomes a huge `unsigned int`, yielding the empty
string. -/
def substringFromA (s : List Char) (fromI : Int) : List Char :=
  if fromI < 0 then [] else s.drop fromI.toNat

/-- C `isspace`, by code point (space, `\t`, `\n`, `\v`, `\f`, `\r`). -/
def isSpaceC (c : Char) : Bool :=
  c.toNat = 32 || c.toNat = 9 || c.toNat = 10 || c.toNat = 11 ||
  c.toNat = 12 || c.toNat = 13

/-- C `isdigit`, by code point (`'0'` is 48, `'9'` is 57). -/
def isDigitC (c : Char) : Bool := 48 ≤ c.toNat && c.toNat ≤ 57

/-- Accumulate the leading decimal digits, as `atol` does after the sign;
stops at the first non-digit. -/
def parseDigits : List Char → Nat → Nat
  | [], acc => acc
  | c :: cs, acc =>
    if isDigitC c then parseDigits cs (10 * acc + (c.toNat - 48)) else acc

/-- Arduino `String.toInt` (C `atol`): skip leading whitespace, then an
optional sign, then leading decimal digits (`0` when there are none). -/
def toIntA (s : List Char) : Int :=
  match s.dropWhile isSpaceC with
  | [] => 0
  | c :: rest =>
    if c = '-' then -(parseDigits rest 0 : Int)
    else if c = '+' then (parseDigits rest 0 : Int)
    else (parseDigits (c :: rest) 0 : Int)

/-- C conversion of an `int` to `uint8_t`, as performed on the arguments
of `sendCommand(uint8_t, uint8_t, uint8_t)`. -/
def u8 (x : Int) : Nat := (x % 256).toNat

/-- The decimal-to-hex pin id conversion in the master's `digital`
branch: the 8-entry lookup, any other value passed through unchanged. -/
def pinHexOf (pinId : Int) : Int :=
  if pinId = 11 then 0x11
  else if pinId = 12 then 0x12
  else if pinId = 21 then 0x21
  else if pinId = 22 then 0x22
  else if pinId = 31 then 0x31
  else if pinId = 32 then 0x32
  else if pinId = 41 then 0x41
  else if pinId = 42 then 0x42
  else pinId

/-- The master `loop()` body for one trimmed operator line `cl`: the
3-byte frame passed to `sendCommand`, or `none` when no frame is sent
(`status`, unrecognized, empty).  Branches appear in source order. -/
def masterHandleLine (cl : List Char) : Option Frame :=
  if cl = "ping".data then some (CMD_PING, 0x00, 0x00)
  else if cl = "reset".data then some (CMD_RESET, 0x00, 0x00)
  else if cl = "status".data then none
  else if listStartsWith "pwm ".data cl then
    let motor := toIntA (substringA cl 4 (indexOfFrom cl ' ' 5))
    let value := toIntA (substringFromA cl (lastIndexOfA cl ' ' + 1))
    some (CMD_PWM, u8 motor, u8 value)
  else if listStartsWith "servo ".data cl then
    let angle := toIntA (substringFromA cl 6)
    some (CMD_SERVO, 0x00, u8 angle)
  else if listStartsWith "neo ".data cl then
    let color := substringFromA cl 4
    let val : Int := if color = "ff".data then 0xFF else toIntA color
    some (CMD_NEOPIXEL, 0x00, u8 val)
  else if listStartsWith "digital ".data cl then
    let pinId := toIntA (substringA cl 8 (indexOfFrom cl ' ' 9))
    let val := toIntA (substringFromA cl (lastIndexOfA cl ' ' + 1))
    some (CMD_DIGITAL, u8 (pinHexOf pinId), u8 val)
  else none

/-! ### Spec-side definitions for refinement comparison -/

/-- Rounding division `round(a / b)` (round half up), following the
spec's `duty = round(value*1023/255)` wording, for comparison with the
truncating division the code performs. -/
def roundDiv (a b : Nat) : Nat := (2 * a + b) / (2 * b)

/-- The NeoPixel palette as the spec states it: value byte to `(r,g,b)`,
`none` outside the five palette entries. -/
def neoPalette (v : Nat) : Option (Nat × Nat × Nat) :=
  if v = 0x00 then some (0, 0, 0)
  else if v = 0x01 then some (255, 0, 0)
  else if v = 0x02 then some (0, 255, 0)
  else if v = 0x03 then some (0, 0, 255)
  else if v = 0xFF then some (255, 255, 255)
  else none

/-- The PWM channel code (0x01..0x04) to PWM pin association used by the
four `ledcWrite` arms of the PWM case. -/
def pwmGpioOf (t : Nat) : Nat :=
  if t = 0x01 then PIN_M1_PWM
  else if t = 0x02 then PIN_M2_PWM
  else if t = 0x03 then PIN_M3_PWM
  else if t = 0x04 then PIN_M4_PWM
  else 0

/-- A character list that is the plain decimal numeral of `n`: nonempty,
all digits, and parsing it yields `n`. -/
def isNumeralOf (s : List Char) (n : Nat) : Prop :=
  s ≠ [] ∧ (∀ c ∈ s, isDigitC c = true) ∧ parseDigits s 0 = n

instance (s : List Char) (n : Nat) : Decidable (isNumeralOf s n) := by
  unfold isNumeralOf; infer_instance

/-! ### Helper lemmas about the dispatcher -/

/-- The effect trace of the SERVO case, for any frame with opcode 0x03
and a byte-sized value. -/
theorem servo_trace (t v : Nat) (hv : v ≤ 255) :
    processCommand 0x03 t v
      = [Effect.ledcWrite PIN_SERVO1 (1638 + v * 6554 / 180), Effect.send 0x03] := by
  have hb : v * 6554 / 180 ≤ 255 * 6554 / 180 :=
    Nat.div_le_div_right (Nat.mul_le_mul_right _ hv)
  have h1 : arduinoMap v 0 180 1638 8192 = v * 6554 / 180 + 1638 := by
    unfold arduinoMap; norm_num
  have hm : arduinoMap v 0 180 1638 8192 % 4294967296 = 1638 + v * 6554 / 180 := by
    rw [h1, Nat.mod_eq_of_lt (by omega)]; omega
  unfold processCommand
  norm_num [CMD_PWM, CMD_DIGITAL, CMD_SERVO, hm]

/-- The effect trace of the RESET case. -/
theorem reset_effects (t v : Nat) :
    processCommand 0xFF t v
      = [Effect.send 0xBB, Effect.delayMs 100, Effect.espRestart] := by
  unfold processCommand
  norm_num [CMD_PWM, CMD_DIGITAL, CMD_SERVO, CMD_NEOPIXEL, CMD_PING, CMD_RESET]

/-- The NEOPIXEL case follows the spec palette: the matched color is
written and shown, an unmatched value only produces the ERROR byte. -/
theorem neo_trace (t v : Nat) :
    processCommand 0x04 t v
      = (match neoPalette v with
         | some (r, g, b) =>
             [Effect.setPixelColor r g b, Effect.pixelShow, Effect.send 0x04]
         | none => [Effect.send 0xEE]) := by
  unfold processCommand neoPalette
  norm_num [CMD_PWM, CMD_DIGITAL, CMD_SERVO, CMD_NEOPIXEL]
  split_ifs <;> rfl

/-- The DIGITAL case writes the looked-up GPIO exactly when the lookup
succeeds. -/
theorem digital_trace (t v : Nat) :
    processCommand 0x02 t v
      = if 0 ≤ pinIdToGpio t then
          [Effect.digitalWrite (pinIdToGpio t) (v != 0), Effect.send 0x02]
        else [Effect.send 0xEE] := by
  unfold processCommand
  norm_num [CMD_PWM, CMD_DIGITAL]

/-! ### C1 -/

/-- C1 (amended): for a PWM frame with a valid target byte 0x01..0x04 the
dispatcher computes `duty = floor(value*1023/255)` (the Arduino `map`
truncates), which lies in [0,1023], writes it to that channel's PWM pin
and responds PWM_OK; for every other target it responds ERROR with no
PWM write. -/
theorem pwm_dispatch_floor (t v : Nat) (hv : v ≤ 255) :
    ((t = 0x01 ∨ t = 0x02 ∨ t = 0x03 ∨ t = 0x04) →
       processCommand 0x01 t v
         = [Effect.ledcWrite (pwmGpioOf t) (v * 1023 / 255), Effect.send 0x01]
       ∧ v * 1023 / 255 ≤ 1023)
    ∧ (¬(t = 0x01 ∨ t = 0x02 ∨ t = 0x03 ∨ t = 0x04) →
       processCommand 0x01 t v = [Effect.send 0xEE]) := by
  have hb : v * 1023 / 255 ≤ 1023 := by
    have h1 : v * 1023 ≤ 255 * 1023 := Nat.mul_le_mul_right _ hv
    have h2 : v * 1023 / 255 ≤ 255 * 1023 / 255 := Nat.div_le_div_right h1
    omega
  have hm : arduinoMap v 0 255 0 1023 % 65536 = v * 1023 / 255 := by
    have h1 : arduinoMap v 0 255 0 1023 = v * 1023 / 255 := by
      unfold arduinoMap; norm_num
    rw [h1, Nat.mod_eq_of_lt (by omega)]
  constructor
  · rintro (rfl | rfl | rfl | rfl) <;>
      exact ⟨by norm_num [processCommand, CMD_PWM, pwmGpioOf, hm], hb⟩
  · intro h
    have h1 : t ≠ 0x01 := fun hh => h (Or.inl hh)
    have h2 : t ≠ 0x02 := fun hh => h (Or.inr (Or.inl hh))
    have h3 : t ≠ 0x03 := fun hh => h (Or.inr (Or.inr (Or.inl hh)))
    have h4 : t ≠ 0x04 := fun hh => h (Or.inr (Or.inr (Or.inr hh)))
    unfold processCommand
    norm_num [CMD_PWM, h1, h2, h3, h4]

/-- Witness for C1: target 0x03 at value 200 writes duty 802 to the M3
PWM pin and answers PWM_OK; target 0x09 answers ERROR. -/
theorem pwm_dispatch_floor_witness :
    (processCommand 0x01 0x03 200
       = [Effect.ledcWrite (pwmGpioOf 0x03) (200 * 1023 / 255), Effect.send 0x01]
     ∧ 200 * 1023 / 255 ≤ 1023)
    ∧ processCommand 0x01 0x09 200 = [Effect.send 0xEE] :=
  ⟨(pwm_dispatch_floor 0x03 200 (by norm_num)).1 (by norm_num),
   (pwm_dispatch_floor 0x09 200 (by norm_num)).2 (by decide)⟩

/-- Counterexample for C1 as stated: at value 128 the code writes duty
513 = floor(128*1023/255), not round(128*1023/255) = 514. -/
theorem pwm_round_counterexample :
    processCommand 0x01 0x01 128 = [Effect.ledcWrite 15 513, Effect.send 0x01]
    ∧ roundDiv (128 * 1023) 255 = 514 ∧ (513 : Nat) ≠ 514 := by
  decide

/-! ### C2 -/

/-- C2 (amended): for every SERVO frame with value byte v ≤ 180 the
dispatcher writes `duty = 1638 + floor(v*6554/180)` (the Arduino `map`
truncates) to the servo pin and always responds SERVO_OK — there is no
failure path for SERVO. -/
theorem servo_dispatch_floor (t v : Nat) (hv : v ≤ 180) :
    processCommand 0x03 t v
      = [Effect.ledcWrite PIN_SERVO1 (1638 + v * 6554 / 180), Effect.send 0x03] :=
  servo_trace t v (by omega)

/-- Witness for C2: angle 90 writes duty 4915 and answers SERVO_OK. -/
theorem servo_dispatch_floor_witness :
    processCommand 0x03 0x00 90
      = [Effect.ledcWrite PIN_SERVO1 (1638 + 90 * 6554 / 180), Effect.send 0x03] :=
  servo_dispatch_floor 0x00 90 (by norm_num)

/-- Counterexample for C2 as stated: at value 7 the code writes duty
1892 = 1638 + floor(7*6554/180), not round(1638 + 7*6554/180) = 1893. -/
theorem servo_round_counterexample :
    processCommand 0x03 0x00 7 = [Effect.ledcWrite 4 1892, Effect.send 0x03]
    ∧ 1638 + roundDiv (7 * 6554) 180 = 1893 ∧ (1892 : Nat) ≠ 1893 := by
  decide

/-! ### C10 -/

/-- C10: for a SERVO frame with value byte in [181,255] the dispatcher
neither clamps nor rejects: it still answers SERVO_OK and writes
`duty = 1638 + floor(v*6554/180)`, which exceeds 8192. -/
theorem servo_overrange_extrapolates (t v : Nat) (h1 : 181 ≤ v) (h2 : v ≤ 255) :
    processCommand 0x03 t v
      = [Effect.ledcWrite PIN_SERVO1 (1638 + v * 6554 / 180), Effect.send 0x03]
    ∧ 8192 < 1638 + v * 6554 / 180 := by
  refine ⟨servo_trace t v h2, ?_⟩
  have hm : 181 * 6554 ≤ v * 6554 := Nat.mul_le_mul_right _ h1
  have hd : 181 * 6554 / 180 ≤ v * 6554 / 180 := Nat.div_le_div_right hm
  have : (181 * 6554) / 180 = 6590 := by norm_num
  omega

/-- Witness for C10: value 255 writes duty 10922 > 8192 and answers
SERVO_OK. -/
theorem servo_overrange_extrapolates_witness :
    (processCommand 0x03 0x00 255
       = [Effect.ledcWrite PIN_SERVO1 (1638 + 255 * 6554 / 180), Effect.send 0x03]
     ∧ 8192 < 1638 + 255 * 6554 / 180)
    ∧ 1638 + 255 * 6554 / 180 = 10922 :=
  ⟨servo_overrange_extrapolates 0x00 255 (by norm_num) (by norm_num), by norm_num⟩

/-! ### C3 -/

/-- C3: a NEOPIXEL frame whose value is one of the five palette codes
updates the indicator to that palette color, shows it, and answers
NEOPIXEL_OK; any other value answers ERROR and leaves the indicator
state unchanged. -/
theorem neopixel_palette_or_error (s : PixelState) (t v : Nat) :
    (∀ r g b, neoPalette v = some (r, g, b) →
       processCommand 0x04 t v
         = [Effect.setPixelColor r g b, Effect.pixelShow, Effect.send 0x04]
       ∧ runEffects s (processCommand 0x04 t v)
           = { buffer := (r, g, b), shown := (r, g, b) })
    ∧ (neoPalette v = none →
       processCommand 0x04 t v = [Effect.send 0xEE]
       ∧ runEffects s (processCommand 0x04 t v) = s) := by
  constructor
  · intro r g b h
    have htr : processCommand 0x04 t v
        = [Effect.setPixelColor r g b, Effect.pixelShow, Effect.send 0x04] := by
      rw [neo_trace, h]
    exact ⟨htr, by rw [htr]; simp [runEffects, applyEffect]⟩
  · intro h
    have htr : processCommand 0x04 t v = [Effect.send 0xEE] := by
      rw [neo_trace, h]
    exact ⟨htr, by rw [htr]; simp [runEffects, applyEffect]⟩

/-- Witness for C3: value 0x02 turns the indicator green from any state;
value 0x07 answers ERROR and leaves an arbitrary state untouched. -/
theorem neopixel_palette_or_error_witness :
    (processCommand 0x04 0x00 0x02
       = [Effect.setPixelColor 0 255 0, Effect.pixelShow, Effect.send 0x04]
     ∧ runEffects ⟨(9, 9, 9), (1, 2, 3)⟩ (processCommand 0x04 0x00 0x02)
         = { buffer := (0, 255, 0), shown := (0, 255, 0) })
    ∧ (processCommand 0x04 0x00 0x07 = [Effect.send 0xEE]
       ∧ runEffects ⟨(9, 9, 9), (1, 2, 3)⟩ (processCommand 0x04 0x00 0x07)
           = ⟨(9, 9, 9), (1, 2, 3)⟩) :=
  ⟨(neopixel_palette_or_error ⟨(9, 9, 9), (1, 2, 3)⟩ 0x00 0x02).1 0 255 0 (by decide),
   (neopixel_palette_or_error ⟨(9, 9, 9), (1, 2, 3)⟩ 0x00 0x07).2 (by decide)⟩

/-! ### C4 -/

/-- C4: for a DIGITAL frame whose target is one of the 8 lookup entries
the dispatcher drives the mapped GPIO — HIGH exactly when the value byte
is nonzero — and answers DIGITAL_OK; any target outside the table maps
to -1, so it answers ERROR and writes no pin. -/
theorem digital_dispatch (t v : Nat) :
    (pinIdToGpio 0x11 = 5 ∧ pinIdToGpio 0x12 = 18 ∧ pinIdToGpio 0x21 = 27
     ∧ pinIdToGpio 0x22 = 14 ∧ pinIdToGpio 0x31 = 32 ∧ pinIdToGpio 0x32 = 33
     ∧ pinIdToGpio 0x41 = 25 ∧ pinIdToGpio 0x42 = 26)
    ∧ (0 ≤ pinIdToGpio t →
        processCommand 0x02 t v
          = [Effect.digitalWrite (pinIdToGpio t) (v != 0), Effect.send 0x02]
        ∧ (v = 0 → (v != 0) = false) ∧ (v ≠ 0 → (v != 0) = true))
    ∧ (pinIdToGpio t < 0 → processCommand 0x02 t v = [Effect.send 0xEE])
    ∧ (t ∉ ([0x11, 0x12, 0x21, 0x22, 0x31, 0x32, 0x41, 0x42] : List Nat) →
        pinIdToGpio t = -1) := by
  refine ⟨by decide, ?_, ?_, ?_⟩
  · intro h
    rw [digital_trace, if_pos h]
    refine ⟨rfl, ?_, ?_⟩ <;> intro hv <;> simp [hv]
  · intro h
    rw [digital_trace, if_neg (by omega)]
  · intro h
    simp only [List.mem_cons, List.not_mem_nil, or_false, not_or] at h
    obtain ⟨n1, n2, n3, n4, n5, n6, n7, n8⟩ := h
    unfold pinIdToGpio
    norm_num [n1, n2, n3, n4, n5, n6, n7, n8]

/-- Witness for C4: target 0x21 with value 1 drives GPIO 27 HIGH and
with value 0 drives it LOW; target 0x05 is rejected with ERROR. -/
theorem digital_dispatch_witness :
    (processCommand 0x02 0x21 1
       = [Effect.digitalWrite (pinIdToGpio 0x21) ((1 : Nat) != 0), Effect.send 0x02]
     ∧ ((1 : Nat) = 0 → ((1 : Nat) != 0) = false)
     ∧ ((1 : Nat) ≠ 0 → ((1 : Nat) != 0) = true))
    ∧ processCommand 0x02 0x05 9 = [Effect.send 0xEE]
    ∧ pinIdToGpio 0x05 = -1 :=
  ⟨(digital_dispatch 0x21 1).2.1 (by decide),
   (digital_dispatch 0x05 9).2.2.1 (by decide),
   (digital_dispatch 0x05 9).2.2.2 (by decide)⟩

/-! ### C6 -/

/-- C6: every 3-byte frame makes `processCommand` emit exactly one
response byte, and an unknown opcode produces exactly the single ERROR
byte with no indicator state change. -/
theorem exactly_one_response (c t v : Nat) :
    (responses (processCommand c t v)).length = 1
    ∧ (c ≠ 0x01 ∧ c ≠ 0x02 ∧ c ≠ 0x03 ∧ c ≠ 0x04 ∧ c ≠ 0xF0 ∧ c ≠ 0xFF →
        processCommand c t v = [Effect.send 0xEE]
        ∧ ∀ s : PixelState, runEffects s (processCommand c t v) = s) := by
  constructor
  · unfold processCommand
    split_ifs <;> simp [responses, responseOf]
    split_ifs <;> simp [responses, responseOf]
  · rintro ⟨h1, h2, h3, h4, h5, h6⟩
    have he : processCommand c t v = [Effect.send 0xEE] := by
      unfold processCommand
      simp [CMD_PWM, CMD_DIGITAL, CMD_SERVO, CMD_NEOPIXEL, CMD_PING, CMD_RESET,
        h1, h2, h3, h4, h5, h6]
    exact ⟨he, fun s => by rw [he]; simp [runEffects, applyEffect]⟩

/-- Witness for C6: the unknown opcode 0x09 yields exactly one ERROR
byte and no indicator change. -/
theorem exactly_one_response_witness :
    (responses (processCommand 0x09 0 0)).length = 1
    ∧ processCommand 0x09 0 0 = [Effect.send 0xEE]
    ∧ runEffects ⟨(1, 2, 3), (4, 5, 6)⟩ (processCommand 0x09 0 0)
        = ⟨(1, 2, 3), (4, 5, 6)⟩ :=
  ⟨(exactly_one_response 0x09 0 0).1,
   ((exactly_one_response 0x09 0 0).2 (by decide)).1,
   ((exactly_one_response 0x09 0 0).2 (by decide)).2 ⟨(1, 2, 3), (4, 5, 6)⟩⟩

/-! ### C7 -/

/-- C7: a RESET frame, for any target and value bytes, first emits
RESET_OK, then delays 100 ms, then restarts — the effect trace is
exactly that sequence, so no command is processed between the RESET_OK
byte and the restart, and at the loop level the next activity after the
restart is the fresh `setup()`. -/
theorem reset_ack_then_restart (t v : Nat) (fs : List Frame) :
    processCommand 0xFF t v
      = [Effect.send 0xBB, Effect.delayMs 100, Effect.espRestart]
    ∧ runFrames ((0xFF, t, v) :: fs)
        = [Effect.send 0xBB, Effect.delayMs 100, Effect.espRestart]
          ++ (setupTrace ++ runFrames fs) := by
  refine ⟨reset_effects t v, ?_⟩
  simp only [runFrames]
  rw [reset_effects]
  simp

/-! ### C9 -/

/-- C9: every startup of the slave (the initial one and the one right
after a RESET restart) emits one unsolicited READY byte 0xAA before any
frame is processed; hence after a RESET frame the operator observes
RESET_OK immediately followed by an unrequested READY. -/
theorem ready_byte_on_startup (t v : Nat) (fs : List Frame) :
    (∀ gs : List Frame,
       responses (runSystem gs) = 0xAA :: responses (runFrames gs))
    ∧ responses (runSystem ((0xFF, t, v) :: fs))
        = 0xAA :: 0xBB :: 0xAA :: responses (runFrames fs) := by
  have hresp : ∀ gs : List Frame,
      responses (runSystem gs) = 0xAA :: responses (runFrames gs) := by
    intro gs
    simp [runSystem, setupTrace, responses, responseOf]
  refine ⟨hresp, ?_⟩
  rw [hresp]
  have hrun : runFrames ((0xFF, t, v) :: fs)
      = [Effect.send 0xBB, Effect.delayMs 100, Effect.espRestart]
        ++ (setupTrace ++ runFrames fs) := by
    simp only [runFrames]
    rw [reset_effects]
    simp
  rw [hrun]
  simp [responses, setupTrace, responseOf]

/-! ### C5 -/

/-- C5 (amended): the encoder maps the operator line `pwm 2 128` to the
frame `[0x01, 0x02, 0x80]`, and the dispatcher, given that frame,
computes `duty = floor(128*1023/255) = 513` (the Arduino `map`
truncates), writes it to the M2 PWM pin, and responds PWM_OK. -/
theorem e2e_pwm_scenario :
    masterHandleLine "pwm 2 128".data = some (0x01, 0x02, 0x80)
    ∧ processCommand 0x01 0x02 0x80
        = [Effect.ledcWrite PIN_M2_PWM 513, Effect.send 0x01]
    ∧ 128 * 1023 / 255 = 513 := by
  decide

/-- Counterexample for C5 as stated: the frame is produced as claimed,
but the duty the dispatcher writes is 513, while round(128*1023/255) is
514. -/
theorem e2e_pwm_round_counterexample :
    masterHandleLine "pwm 2 128".data = some (0x01, 0x02, 0x80)
    ∧ processCommand 0x01 0x02 0x80 = [Effect.ledcWrite 2 513, Effect.send 0x01]
    ∧ roundDiv (128 * 1023) 255 = 514 ∧ (513 : Nat) ≠ 514 := by
  decide

/-! ### Helper lemmas about the Arduino String operations -/

theorem digit_ne_space {c : Char} (h : isDigitC c = true) : c ≠ ' ' := by
  rintro rfl; exact absurd h (by decide)

theorem digit_ne_dash {c : Char} (h : isDigitC c = true) : c ≠ '-' := by
  rintro rfl; exact absurd h (by decide)

theorem digit_ne_plus {c : Char} (h : isDigitC c = true) : c ≠ '+' := by
  rintro rfl; exact absurd h (by decide)

theorem digit_not_spaceC {c : Char} (h : isDigitC c = true) : isSpaceC c = false := by
  simp only [isDigitC, Bool.and_eq_true, decide_eq_true_eq] at h
  simp only [isSpaceC, Bool.or_eq_false_iff, decide_eq_false_iff_not]
  omega

/-- Scanning a block free of `ch` followed by `ch` finds the boundary. -/
theorem indexOfAux_append (ch : Char) (xs rest : List Char) (i : Nat)
    (h : ∀ c ∈ xs, c ≠ ch) :
    indexOfAux ch (xs ++ ch :: rest) i = some (i + xs.length) := by
  induction xs generalizing i with
  | nil => simp [indexOfAux]
  | cons c cs ih =>
    have hc : c ≠ ch := h c (List.mem_cons_self c cs)
    simp only [List.cons_append, indexOfAux, if_neg hc, List.append_eq]
    rw [ih (i + 1) (fun d hd => h d (List.mem_cons_of_mem c hd))]
    congr 1
    simp only [List.length_cons]
    omega

theorem take_len_append (a b : List Char) (n : Nat) :
    (a ++ b).take (a.length + n) = a ++ b.take n := by
  induction a with
  | nil => simp
  | cons x xs ih =>
    have hl : (x :: xs).length + n = (xs.length + n) + 1 := by
      simp only [List.length_cons]; omega
    rw [hl]
    simp only [List.cons_append, List.take_succ_cons, ih]

theorem drop_len_append (a b : List Char) (n : Nat) :
    (a ++ b).drop (a.length + n) = b.drop n := by
  induction a with
  | nil => simp
  | cons x xs ih =>
    have hl : (x :: xs).length + n = (xs.length + n) + 1 := by
      simp only [List.length_cons]; omega
    rw [hl]
    simp only [List.cons_append, List.drop_succ_cons, ih]

/-- `substring(left, right)` of `a ++ mid ++ rest` with the exact
bounds of `mid` extracts `mid`. -/
theorem substringA_exact (a mid rest : List Char) :
    substringA (a ++ mid ++ rest) a.length ((a.length + mid.length : Nat) : Int)
      = mid := by
  rw [List.append_assoc]
  unfold substringA
  rw [if_neg (by omega)]
  have ht : ((a.length + mid.length : Nat) : Int).toNat = a.length + mid.length := by
    omega
  rw [ht]
  have hlen : (a ++ (mid ++ rest)).length = a.length + mid.length + rest.length := by
    simp only [List.length_append]; omega
  rw [hlen]
  have h1 : min (a.length + mid.length) (a.length + mid.length + rest.length)
      = a.length + mid.length := by omega
  rw [h1]
  have h2 : max a.length (a.length + mid.length) = a.length + mid.length := by omega
  have h3 : min a.length (a.length + mid.length) = a.length := by omega
  rw [h2, h3]
  rw [take_len_append]
  have hmid : (mid ++ rest).take mid.length = mid := by simp
  rw [hmid]
  have hdrop : (a ++ mid).drop a.length = mid := by simp
  exact hdrop

/-- `substring(from)` starting one past the end of `b` in `b ++ z :: rest`
extracts `rest`. -/
theorem substringFromA_tail (b rest : List Char) (z : Char) :
    substringFromA (b ++ z :: rest) (((b.length : Nat) : Int) + 1) = rest := by
  unfold substringFromA
  rw [if_neg (by omega)]
  have ht : (((b.length : Nat) : Int) + 1).toNat = b.length + 1 := by omega
  rw [ht, drop_len_append]
  rfl

/-- `toInt` of a plain decimal numeral parses it. -/
theorem toIntA_numeral {s : List Char} {n : Nat} (h : isNumeralOf s n) :
    toIntA s = (n : Int) := by
  obtain ⟨hne, hdig, hval⟩ := h
  cases s with
  | nil => exact absurd rfl hne
  | cons c cs =>
    have hc : isDigitC c = true := hdig c (List.mem_cons_self c cs)
    have hdw : List.dropWhile isSpaceC (c :: cs) = c :: cs := by
      simp [List.dropWhile, digit_not_spaceC hc]
    unfold toIntA
    rw [hdw]
    show (if c = '-' then -(parseDigits cs 0 : Int)
          else if c = '+' then (parseDigits cs 0 : Int)
          else (parseDigits (c :: cs) 0 : Int)) = (n : Int)
    rw [if_neg (digit_ne_dash hc), if_neg (digit_ne_plus hc), hval]

/-! ### C8 -/

/-- C8 (amended): for every operator line `digital <p> <v>` with decimal
numerals `<p>` and `<v>` (small enough for `toInt` not to overflow), the
encoder maps `p` through the fixed lookup `{11→0x11, …, 42→0x42}` and
sends the frame `[0x02, mapped_p mod 256, v mod 256]`; for `p` outside
the 8 keys the target byte is `p mod 256` — the low byte of `p`, so `p`
unchanged only when `p < 256`. -/
theorem digital_line_encoding (sp sv : List Char) (p v : Nat)
    (hsp : isNumeralOf sp p) (hsv : isNumeralOf sv v)
    (_hp : p < 2147483648) (_hv : v < 2147483648) :
    masterHandleLine ("digital ".data ++ sp ++ ' ' :: sv)
      = some (0x02, u8 (pinHexOf ((p : Nat) : Int)), u8 ((v : Nat) : Int))
    ∧ u8 ((v : Nat) : Int) = v % 256
    ∧ (pinHexOf 11 = 0x11 ∧ pinHexOf 12 = 0x12 ∧ pinHexOf 21 = 0x21
       ∧ pinHexOf 22 = 0x22 ∧ pinHexOf 31 = 0x31 ∧ pinHexOf 32 = 0x32
       ∧ pinHexOf 41 = 0x41 ∧ pinHexOf 42 = 0x42)
    ∧ ((p ≠ 11 ∧ p ≠ 12 ∧ p ≠ 21 ∧ p ≠ 22 ∧ p ≠ 31 ∧ p ≠ 32 ∧ p ≠ 41 ∧ p ≠ 42)
        → u8 (pinHexOf ((p : Nat) : Int)) = p % 256) := by
  refine ⟨?_, by unfold u8; omega, by decide, ?_⟩
  · obtain ⟨hneSp, hdigSp, -⟩ := id hsp
    obtain ⟨c, cs, rfl⟩ : ∃ c cs, sp = c :: cs := by
      cases sp with
      | nil => exact absurd rfl hneSp
      | cons c cs => exact ⟨c, cs, rfl⟩
    obtain ⟨hneSv, hdigSv, -⟩ := id hsv
    have hALen : ("digital ".data : List Char).length = 8 := rfl
    have hnospace_cs : ∀ d ∈ cs, d ≠ ' ' :=
      fun d hd => digit_ne_space (hdigSp d (List.mem_cons_of_mem c hd))
    have hnospace_svr : ∀ d ∈ sv.reverse, d ≠ ' ' :=
      fun d hd => digit_ne_space (hdigSv d (List.mem_reverse.mp hd))
    have hping : ("digital ".data ++ (c :: cs) ++ ' ' :: sv) ≠ "ping".data := by
      intro h
      have h2 : 'd' :: ('i' :: 'g' :: 'i' :: 't' :: 'a' :: 'l' :: ' ' ::
          (c :: (cs ++ ' ' :: sv))) = 'p' :: ('i' :: 'n' :: 'g' :: []) := h
      injection h2 with hhd _
      exact absurd hhd (by decide)
    have hreset : ("digital ".data ++ (c :: cs) ++ ' ' :: sv) ≠ "reset".data := by
      intro h
      have h2 : 'd' :: ('i' :: 'g' :: 'i' :: 't' :: 'a' :: 'l' :: ' ' ::
          (c :: (cs ++ ' ' :: sv))) = 'r' :: ('e' :: 's' :: 'e' :: 't' :: []) := h
      injection h2 with hhd _
      exact absurd hhd (by decide)
    have hstatus : ("digital ".data ++ (c :: cs) ++ ' ' :: sv) ≠ "status".data := by
      intro h
      have h2 : 'd' :: ('i' :: 'g' :: 'i' :: 't' :: 'a' :: 'l' :: ' ' ::
          (c :: (cs ++ ' ' :: sv))) = 's' :: ('t' :: 'a' :: 't' :: 'u' :: 's' :: []) := h
      injection h2 with hhd _
      exact absurd hhd (by decide)
    have hpwm : listStartsWith "pwm ".data
        ("digital ".data ++ (c :: cs) ++ ' ' :: sv) = false := rfl
    have hservo : listStartsWith "servo ".data
        ("digital ".data ++ (c :: cs) ++ ' ' :: sv) = false := rfl
    have hneo : listStartsWith "neo ".data
        ("digital ".data ++ (c :: cs) ++ ' ' :: sv) = false := rfl
    have hdigT : listStartsWith "digital ".data
        ("digital ".data ++ (c :: cs) ++ ' ' :: sv) = true := rfl
    have hidx : indexOfFrom ("digital ".data ++ (c :: cs) ++ ' ' :: sv) ' ' 9
        = ((("digital ".data : List Char).length + (c :: cs).length : Nat) : Int) := by
      unfold indexOfFrom
      rw [show ("digital ".data ++ (c :: cs) ++ ' ' :: sv).drop 9
            = cs ++ ' ' :: sv from rfl]
      rw [indexOfAux_append ' ' cs sv 9 hnospace_cs]
      show ((9 + cs.length : Nat) : Int) = _
      have h9 : 9 + cs.length
          = ("digital ".data : List Char).length + (c :: cs).length := by
        simp only [List.length_cons, hALen]; omega
      rw [h9]
    have hlast : lastIndexOfA ("digital ".data ++ (c :: cs) ++ ' ' :: sv) ' '
        = ((("digital ".data ++ (c :: cs) : List Char).length : Nat) : Int) := by
      unfold lastIndexOfA
      have hrev : ("digital ".data ++ (c :: cs) ++ ' ' :: sv).reverse
          = sv.reverse ++ ' ' ::
              (cs.reverse ++ [c, ' ', 'l', 'a', 't', 'i', 'g', 'i', 'd']) := by
        rw [show ("digital ".data : List Char)
              = ['d', 'i', 'g', 'i', 't', 'a', 'l', ' '] from rfl]
        simp [List.reverse_append, List.append_assoc]
      rw [hrev,
        indexOfAux_append ' ' sv.reverse
          (cs.reverse ++ [c, ' ', 'l', 'a', 't', 'i', 'g', 'i', 'd']) 0 hnospace_svr]
      show ((("digital ".data ++ (c :: cs) ++ ' ' :: sv).length - 1
              - (0 + sv.reverse.length) : Nat) : Int) = _
      have hL : ("digital ".data ++ (c :: cs) ++ ' ' :: sv).length
          = 10 + cs.length + sv.length := by
        simp only [List.length_append, List.length_cons, hALen]; omega
      have hB : ("digital ".data ++ (c :: cs) : List Char).length = 9 + cs.length := by
        simp only [List.length_append, List.length_cons, hALen]; omega
      rw [hL, hB, List.length_reverse]
      have hv9 : 10 + cs.length + sv.length - 1 - (0 + sv.length) = 9 + cs.length := by
        omega
      rw [hv9]
    unfold masterHandleLine
    rw [if_neg hping, if_neg hreset, if_neg hstatus,
      if_neg (by simp only [hpwm]; decide),
      if_neg (by simp only [hservo]; decide),
      if_neg (by simp only [hneo]; decide), if_pos hdigT]
    show some (CMD_DIGITAL,
        u8 (pinHexOf (toIntA (substringA ("digital ".data ++ (c :: cs) ++ ' ' :: sv) 8
          (indexOfFrom ("digital ".data ++ (c :: cs) ++ ' ' :: sv) ' ' 9)))),
        u8 (toIntA (substringFromA ("digital ".data ++ (c :: cs) ++ ' ' :: sv)
          (lastIndexOfA ("digital ".data ++ (c :: cs) ++ ' ' :: sv) ' ' + 1))))
      = some (0x02, u8 (pinHexOf ((p : Nat) : Int)), u8 ((v : Nat) : Int))
    rw [hidx, hlast, show (8 : Nat) = ("digital ".data : List Char).length from rfl]
    rw [substringA_exact "digital ".data (c :: cs) (' ' :: sv)]
    rw [toIntA_numeral hsp]
    rw [substringFromA_tail]
    rw [toIntA_numeral hsv]
    rfl
  · rintro ⟨h1, h2, h3, h4, h5, h6, h7, h8⟩
    have e1 : ((p : Nat) : Int) ≠ 11 := by exact_mod_cast h1
    have e2 : ((p : Nat) : Int) ≠ 12 := by exact_mod_cast h2
    have e3 : ((p : Nat) : Int) ≠ 21 := by exact_mod_cast h3
    have e4 : ((p : Nat) : Int) ≠ 22 := by exact_mod_cast h4
    have e5 : ((p : Nat) : Int) ≠ 31 := by exact_mod_cast h5
    have e6 : ((p : Nat) : Int) ≠ 32 := by exact_mod_cast h6
    have e7 : ((p : Nat) : Int) ≠ 41 := by exact_mod_cast h7
    have e8 : ((p : Nat) : Int) ≠ 42 := by exact_mod_cast h8
    unfold pinHexOf
    rw [if_neg e1, if_neg e2, if_neg e3, if_neg e4, if_neg e5, if_neg e6,
      if_neg e7, if_neg e8]
    unfold u8
    omega

/-- Witness for C8: the line `digital 300 1` produces the frame with
opcode 0x02, target byte `u8 (pinHexOf 300)` and value byte `u8 1`. -/
theorem digital_line_encoding_witness :
    masterHandleLine ("digital ".data ++ ['3', '0', '0'] ++ ' ' :: ['1'])
      = some (0x02, u8 (pinHexOf ((300 : Nat) : Int)), u8 ((1 : Nat) : Int)) :=
  (digital_line_encoding ['3', '0', '0'] ['1'] 300 1 (by decide) (by decide)
    (by norm_num) (by norm_num)).1

/-- Counterexample for C8 as stated: for `p = 300`, outside the 8 keys,
the target byte actually sent is 0x2C = 300 mod 256, not `p`
unchanged. -/
theorem digital_truncation_counterexample :
    masterHandleLine "digital 300 1".data = some (0x02, 0x2C, 0x01)
    ∧ (0x2C : Nat) ≠ 300 := by
  decide

end TestStation
